import Mathlib

/- Verification development for the raymarching path tracer
   (src/sdf.rs, src/renderer.rs, src/main.rs, src/ppm.rs).

   Modelling conventions:
   * `f32` values are modelled as elements of a linear ordered field `F`
     (instantiated at `ℚ` for executable checks and at `ℝ` where a square
     root is needed); `i32` counters are modelled as `ℤ`.
   * `glam::Vec3` is a record of three scalars with component-wise
     operations.
   * The sphere-tracing loop of `SdfMap::ray_intersection` is embedded once
     in an operation-generic form (scalar addition, multiplication and the
     `<` test are parameters), so that statements quantifying over arbitrary
     comparison behaviour of the scalar type (IEEE NaN/Inf included) can be
     made; the program's own instantiation fills in the field operations.
   * Randomness (`rand::thread_rng`) and `std::io` effects are modelled as
     explicit oracles passed to the embedded functions. -/

/-- Component-wise 3-vector of scalars, modelling `glam::Vec3`. -/
structure Vec3 (F : Type) where
  x : F
  y : F
  z : F
deriving DecidableEq

variable {F : Type}

instance [Add F] : Add (Vec3 F) :=
  ⟨fun u v => ⟨u.x + v.x, u.y + v.y, u.z + v.z⟩⟩

instance [Sub F] : Sub (Vec3 F) :=
  ⟨fun u v => ⟨u.x - v.x, u.y - v.y, u.z - v.z⟩⟩

instance [Neg F] : Neg (Vec3 F) :=
  ⟨fun v => ⟨-v.x, -v.y, -v.z⟩⟩

instance [Mul F] : Mul (Vec3 F) :=
  ⟨fun u v => ⟨u.x * v.x, u.y * v.y, u.z * v.z⟩⟩

instance [Mul F] : SMul F (Vec3 F) :=
  ⟨fun a v => ⟨a * v.x, a * v.y, a * v.z⟩⟩

instance [Zero F] : Zero (Vec3 F) := ⟨⟨0, 0, 0⟩⟩

instance [One F] : One (Vec3 F) := ⟨⟨1, 1, 1⟩⟩

/-- Squared Euclidean norm of a vector (`glam`'s `length_squared`,
`dot(self, self)`); the length itself is `sqrt` of this value. -/
def normSq [Add F] [Mul F] (v : Vec3 F) : F :=
  v.x * v.x + v.y * v.y + v.z * v.z

/-- Surface material, from `src/sdf.rs` (`enum Material`). -/
inductive Material (F : Type) where
  | Lambertian : Vec3 F → Material F
  | Emissive : Vec3 F → Material F
deriving DecidableEq

/-- `DistInfo` from `src/sdf.rs`: a distance together with a material. -/
structure DistInfo (F : Type) where
  distance : F
  material : Material F
deriving DecidableEq

/-- `HitInfo` from `src/sdf.rs`: a surface hit position and its material. -/
structure HitInfo (F : Type) where
  position : Vec3 F
  material : Material F
deriving DecidableEq

/-- `SURFACE_DIST = 0.001` from `src/sdf.rs`. -/
def SURFACE_DIST [LinearOrderedField F] : F := 1 / 1000

/-- `MAX_DIST = 30.0` from `src/sdf.rs`. -/
def MAX_DIST [LinearOrderedField F] : F := 30

/-- `MAX_STEPS = 1000` from `src/sdf.rs` (an `i32`). -/
def MAX_STEPS : ℤ := 1000

/-- `MAX_BOUNCES = 5`, shared by `src/renderer.rs` and `src/main.rs`. -/
def MAX_BOUNCES : ℤ := 5

/-- `MAX_DIST = 100.0` from `src/main.rs` (the older snapshot). -/
def MAIN_MAX_DIST [LinearOrderedField F] : F := 100

/-- `MAX_STEPS = 100` from `src/main.rs` (the older snapshot). -/
def MAIN_MAX_STEPS : ℤ := 100

/-- Distance function of `Sphere` from `src/sdf.rs`:
`p.length() - self.radius`.  The `f32` square root is passed explicitly as
`sq` since the mathematical square root on `ℝ` is not a computable
function. -/
def sphere_dist [LinearOrderedField F] (sq : F → F) (radius : F) (p : Vec3 F) : F :=
  sq (normSq p) - radius

/-- `f32::clamp(self, lo, hi)`: `self.max(lo).min(hi)`. -/
def clampF [LinearOrderedField F] (v lo hi : F) : F :=
  min (max v lo) hi

/-- Distance function of `SmoothUnion` from `src/sdf.rs`, applied to the two
child distances `d1`, `d2` and the blend radius `k`. -/
def smooth_union_dist [LinearOrderedField F] (d1 d2 k : F) : F :=
  let h1 := clampF (1 / 2 + 1 / 2 * (d2 - d1) / k) 0 1
  let h2 := 1 - h1
  h1 * d1 + h2 * d2 - k * h1 * h2

/-- A material-tagged map value: the pair of methods of the `SdfMap` trait
(`dist` and `distinfo`) from `src/sdf.rs`.  The two implementors in the
source are `SdfObject` and `Union`; `MapTree` below builds exactly those. -/
structure SdfMapS (F : Type) where
  dist : Vec3 F → F
  distinfo : Vec3 F → DistInfo F

/-- Composition tree of material-tagged maps: `obj` is an `SdfObject`
(an arbitrary distance function tagged with one material) and `union` is
the `Union` map combinator, the two `SdfMap` implementations in
`src/sdf.rs`. -/
inductive MapTree (F : Type) where
  | obj : (Vec3 F → F) → Material F → MapTree F
  | union : MapTree F → MapTree F → MapTree F

/-- `dist` of the `SdfMap` implementations in `src/sdf.rs`: an `SdfObject`
delegates to its SDF, a `Union` takes the minimum of its children. -/
def MapTree.dist [LinearOrderedField F] : MapTree F → Vec3 F → F
  | .obj d _, p => d p
  | .union a b, p => min (a.dist p) (b.dist p)

/-- `distinfo` of the `SdfMap` implementations in `src/sdf.rs`: an
`SdfObject` re-derives the distance and pairs it with its material, a
`Union` keeps whichever child `DistInfo` has the strictly smaller distance
(the right child on ties). -/
def MapTree.distinfo [LinearOrderedField F] : MapTree F → Vec3 F → DistInfo F
  | .obj d m, p => ⟨d p, m⟩
  | .union a b, p =>
    let distinfo1 := a.distinfo p
    let distinfo2 := b.distinfo p
    if distinfo1.distance < distinfo2.distance then distinfo1 else distinfo2

/-- Package a `MapTree` as an `SdfMapS` value. -/
def MapTree.toMap [LinearOrderedField F] (t : MapTree F) : SdfMapS F :=
  ⟨t.dist, t.distinfo⟩

/-- Vector addition expressed through an explicit scalar addition, used by
the operation-generic embedding of the sphere-tracing loop. -/
def vadd2 (fadd : F → F → F) (u v : Vec3 F) : Vec3 F :=
  ⟨fadd u.x v.x, fadd u.y v.y, fadd u.z v.z⟩

/-- Scalar multiplication expressed through an explicit scalar
multiplication, used by the operation-generic embedding of the
sphere-tracing loop. -/
def vsmul2 (fmul : F → F → F) (a : F) (v : Vec3 F) : Vec3 F :=
  ⟨fmul a v.x, fmul a v.y, fmul a v.z⟩

/-- The loop of `SdfMap::ray_intersection` from `src/sdf.rs`, generic over
the scalar operations (`fadd`, `fmul`) and the `<` test (`fltB`) on the
`f32` model, so that arbitrary comparison behaviour (IEEE NaN/Inf
included) is covered.  The `i32` step counter is exact (`ℤ`).  `fuel`
bounds the number of executed iterations: the result is `none` if the fuel
ran out before the loop exited, and `some r` with `r` the loop's own
result (a hit or a miss) otherwise. -/
def ray_intersection_go (fadd fmul : F → F → F) (fltB : F → F → Bool)
    (eps maxd : F) (mdist : Vec3 F → F) (minfo : Vec3 F → DistInfo F)
    (origin direction : Vec3 F) :
    ℕ → F → ℤ → Option (Option (HitInfo F))
  | 0, _, _ => none
  | fuel + 1, acc, steps =>
    let position := vadd2 fadd origin (vsmul2 fmul acc direction)
    let dist := mdist position
    let acc' := fadd acc dist
    let steps' := steps + 1
    if fltB dist eps then
      some (some ⟨vadd2 fadd origin (vsmul2 fmul acc' direction),
        (minfo (vadd2 fadd origin (vsmul2 fmul acc' direction))).material⟩)
    else if fltB maxd acc' || decide (MAX_STEPS < steps') then
      some none
    else
      ray_intersection_go fadd fmul fltB eps maxd mdist minfo origin direction
        fuel acc' steps'

/-- `SdfMap::ray_intersection` from `src/sdf.rs`: the loop instantiated
with the field operations, starting from `acc = 0`, `steps = 0`.
`MAX_STEPS.toNat + 1 = 1001` iterations always suffice for the loop to
exit (proved below), so the `getD` default is never used. -/
def SdfMapS.ray_intersection [LinearOrderedField F] (m : SdfMapS F)
    (origin direction : Vec3 F) : Option (HitInfo F) :=
  (ray_intersection_go (fun a b => a + b) (fun a b => a * b)
    (fun a b => decide (a < b)) SURFACE_DIST MAX_DIST m.dist m.distinfo
    origin direction (MAX_STEPS.toNat + 1) 0 0).getD none

/-- Accumulated ray parameter at the start of the `n`-th iteration of the
`SdfMap::ray_intersection` loop: `acc` starts at `0` and each iteration
adds the map distance at the current position (`acc += dist`). -/
def traceAcc [LinearOrderedField F] (m : SdfMapS F)
    (origin direction : Vec3 F) : ℕ → F
  | 0 => 0
  | n + 1 =>
    traceAcc m origin direction n +
      m.dist (origin + traceAcc m origin direction n • direction)

/-- Central-difference normal estimator `SdfMap::normal` from `src/sdf.rs`:
finite differences of `dist` at offset `SURFACE_DIST` along each axis,
normalized (`v / v.length()`); the `f32` square root is the explicit
parameter `sq`. -/
def normalAt [LinearOrderedField F] (sq : F → F) (m : SdfMapS F)
    (p : Vec3 F) : Vec3 F :=
  let dx : Vec3 F := ⟨SURFACE_DIST, 0, 0⟩
  let dy : Vec3 F := ⟨0, SURFACE_DIST, 0⟩
  let dz : Vec3 F := ⟨0, 0, SURFACE_DIST⟩
  let x := m.dist (p + dx) - m.dist (p - dx)
  let y := m.dist (p + dy) - m.dist (p - dy)
  let z := m.dist (p + dz) - m.dist (p - dz)
  let l := sq (normSq ⟨x, y, z⟩)
  ⟨x / l, y / l, z / l⟩

/-- `Scene` from `src/renderer.rs`, restricted to the two fields `cast_ray`
reads (`map` and `background_color`); the camera is consumed only by
`render`, whose per-sample work is abstracted as an oracle below. -/
structure SceneS (F : Type) where
  map : SdfMapS F
  background_color : Vec3 F → Vec3 F

/-- The loop of `cast_ray` from `src/renderer.rs`.  State: current ray
`origin`/`direction`, accumulated throughput `acc` and the `i32` bounce
counter.  The cosine-weighted hemisphere sampler is the oracle `dirs`,
indexed by the bounce counter at the time of the call.  `fuel` only bounds
the recursion; `MAX_BOUNCES.toNat + 2 = 7` iterations always suffice
(when the fuel runs out the current `acc` is returned, a case proved
unreachable for the program's instantiation). -/
def cast_ray_go [LinearOrderedField F] (sq : F → F) (scene : SceneS F)
    (dirs : ℕ → Vec3 F) :
    ℕ → Vec3 F → Vec3 F → Vec3 F → ℤ → Vec3 F
  | 0, _, _, acc, _ => acc
  | fuel + 1, origin, direction, acc, bounces =>
    if MAX_BOUNCES < bounces then 0
    else
      match scene.map.ray_intersection origin direction with
      | some hit_info =>
        match hit_info.material with
        | .Lambertian color =>
          cast_ray_go sq scene dirs fuel
            (hit_info.position +
              ((2 * SURFACE_DIST : F)) • normalAt sq scene.map hit_info.position)
            (dirs bounces.toNat) (color * acc) (bounces + 1)
        | .Emissive color => color * acc
      | none => scene.background_color direction * acc

/-- `cast_ray` from `src/renderer.rs`: the loop started with throughput
`Vec3::ONE` and `bounces = 0`. -/
def cast_ray [LinearOrderedField F] (sq : F → F) (scene : SceneS F)
    (dirs : ℕ → Vec3 F) (origin direction : Vec3 F) : Vec3 F :=
  cast_ray_go sq scene dirs (MAX_BOUNCES.toNat + 2) origin direction 1 0

/-- The loop of `get_intersection` from `src/main.rs` (the older snapshot):
it returns the final accumulated parameter; the loop exits as soon as
`dist < SURFACE_DIST || acc > MAX_DIST || steps > MAX_STEPS` with the
`main.rs` constants (`100.0`, `100`).  `MAIN_MAX_STEPS.toNat + 1 = 101`
iterations always suffice; when the fuel runs out the current `acc` is
returned. -/
def get_intersection_acc [LinearOrderedField F] (m : SdfMapS F)
    (origin ray : Vec3 F) : ℕ → F → ℤ → F
  | 0, acc, _ => acc
  | fuel + 1, acc, steps =>
    let position := origin + acc • ray
    let dist := m.dist position
    let acc' := acc + dist
    let steps' := steps + 1
    if dist < SURFACE_DIST ∨ MAIN_MAX_DIST < acc' ∨ MAIN_MAX_STEPS < steps' then
      acc'
    else
      get_intersection_acc m origin ray fuel acc' steps'

/-- `get_intersection` from `src/main.rs`: unlike `ray_intersection` it has
no miss case and always builds a `HitInfo` at the final position. -/
def get_intersection [LinearOrderedField F] (m : SdfMapS F)
    (origin ray : Vec3 F) : HitInfo F :=
  let acc := get_intersection_acc m origin ray (MAIN_MAX_STEPS.toNat + 1) 0 0
  ⟨origin + acc • ray, (m.distinfo (origin + acc • ray)).material⟩

/-- The loop of `cast_ray` from `src/main.rs` (the older snapshot): it
exits with black as soon as `bounces >= MAX_BOUNCES`, offsets the next
origin by `1.1 * SURFACE_DIST` along the normal, and has no miss case
(`get_intersection` always returns a `HitInfo`). -/
def cast_ray_main_go [LinearOrderedField F] (sq : F → F) (m : SdfMapS F)
    (dirs : ℕ → Vec3 F) :
    ℕ → Vec3 F → Vec3 F → Vec3 F → ℤ → Vec3 F
  | 0, _, _, acc, _ => acc
  | fuel + 1, origin, ray, acc, bounces =>
    if MAX_BOUNCES ≤ bounces then 0
    else
      let hitinfo := get_intersection m origin ray
      match hitinfo.material with
      | .Lambertian color =>
        cast_ray_main_go sq m dirs fuel
          (hitinfo.position +
            ((11 / 10 * SURFACE_DIST : F)) • normalAt sq m hitinfo.position)
          (dirs bounces.toNat) (color * acc) (bounces + 1)
      | .Emissive color => color * acc

/-- `cast_ray` from `src/main.rs`: the loop started with throughput
`Vec3::ONE` and `bounces = 0`. -/
def cast_ray_main [LinearOrderedField F] (sq : F → F) (m : SdfMapS F)
    (dirs : ℕ → Vec3 F) (origin ray : Vec3 F) : Vec3 F :=
  cast_ray_main_go sq m dirs (MAX_BOUNCES.toNat + 1) origin ray 1 0

/-- State of the `cast_ray` loop of `src/renderer.rs` before a bounce: the
current ray and the accumulated throughput. -/
structure PathState (F : Type) where
  origin : Vec3 F
  direction : Vec3 F
  acc : Vec3 F

/-- One body execution of the `cast_ray` loop of `src/renderer.rs` at
bounce index `n`, as a state transformer: a Lambertian hit multiplies the
throughput by the albedo and sets up the next ray exactly as the loop
does; an emissive hit or a miss ends the path, modelled by freezing the
state. -/
def bounce_step [LinearOrderedField F] (sq : F → F) (scene : SceneS F)
    (dirs : ℕ → Vec3 F) (n : ℕ) (s : PathState F) : PathState F :=
  match scene.map.ray_intersection s.origin s.direction with
  | some hit_info =>
    match hit_info.material with
    | .Lambertian color =>
      ⟨hit_info.position +
          ((2 * SURFACE_DIST : F)) • normalAt sq scene.map hit_info.position,
        dirs n, color * s.acc⟩
    | .Emissive _ => s
  | none => s

/-- The sequence of `cast_ray` loop states along a path: state `n` is the
state at the start of the iteration with `bounces = n`. -/
def path_trace [LinearOrderedField F] (sq : F → F) (scene : SceneS F)
    (dirs : ℕ → Vec3 F) (origin direction : Vec3 F) : ℕ → PathState F
  | 0 => ⟨origin, direction, 1⟩
  | n + 1 => bounce_step sq scene dirs n (path_trace sq scene dirs origin direction n)

/-- Component-wise non-negativity of a vector. -/
def vnonneg [LinearOrderedField F] (v : Vec3 F) : Prop :=
  0 ≤ v.x ∧ 0 ≤ v.y ∧ 0 ≤ v.z

/-- Component-wise order on vectors. -/
def vle [LinearOrderedField F] (u v : Vec3 F) : Prop :=
  u.x ≤ v.x ∧ u.y ≤ v.y ∧ u.z ≤ v.z

/-- Outcome of a call to `export_ppm` from `src/ppm.rs`: the process
panics, or the function returns `Ok(())` or `Err(e)`. -/
inductive ExportOutcome (E : Type) where
  | panicked
  | ok
  | error : E → ExportOutcome E
deriving DecidableEq

/-- Index of the first failing write among `count` consecutive writes
starting at write index `start`, given the oracle `wr` assigning each
write its `io::Result`. -/
def firstWriteError {E : Type} (wr : ℕ → Except E Unit) :
    ℕ → ℕ → Option E
  | _, 0 => none
  | start, count + 1 =>
    match wr start with
    | .error e => some e
    | .ok _ => firstWriteError wr (start + 1) count

/-- `gamma_encode` from `src/ppm.rs`: clamp to `[0,1]` component-wise, then
raise to `1/2.2`; the `f32` `powf` is the explicit parameter `powf`. -/
def gamma_encode [LinearOrderedField F] (powf : F → F → F) (pixel : Vec3 F) :
    Vec3 F :=
  ⟨powf (clampF pixel.x 0 1) (1 / (22 / 10)),
   powf (clampF pixel.y 0 1) (1 / (22 / 10)),
   powf (clampF pixel.z 0 1) (1 / (22 / 10))⟩

/-- `export_ppm` from `src/ppm.rs`, with the file system modelled by
oracles: `createRes` is the result of `File::create(path)`, `wr n` the
result of the `n`-th `writeln!` (index `0` is the header, the pixel
triplets follow row-major; write payloads do not influence success and
are not modelled), `flushRes` the result of the final `flush`.  The code
indexes `pixels[0]` (panicking on an empty grid), then *unwraps* the
result of `File::create`, panicking on a creation failure; every later
I/O failure is returned with `?`/`flush` as `Err`. -/
def export_ppm {F E : Type} (createRes : Except E Unit)
    (wr : ℕ → Except E Unit) (flushRes : Except E Unit)
    (pixels : List (List (Vec3 F))) : ExportOutcome E :=
  match pixels with
  | [] => .panicked
  | row0 :: rest =>
    match createRes with
    | .error _ => .panicked
    | .ok _ =>
      match wr 0 with
      | .error e => .error e
      | .ok _ =>
        match firstWriteError wr 1
            (((row0 :: rest).map List.length).sum) with
        | some e => .error e
        | none =>
          match flushRes with
          | .ok _ => .ok
          | .error e => .error e

/-- Marker for the panic of `Option::unwrap` on `None` in
`src/renderer.rs`'s `render`. -/
inductive RPanic where
  | unwrapNone
deriving DecidableEq

/-- The integer range `0..n` of Rust, as a list of `ℤ` (empty when
`n ≤ 0`). -/
def intRange (n : ℤ) : List ℤ :=
  (List.range n.toNat).map Int.ofNat

/-- `Iterator::reduce(|u, v| u + v)`: `None` on an empty iterator. -/
def reduceAdd [Add α] : List α → Option α
  | [] => none
  | v :: rest => some (rest.foldl (fun u w => u + w) v)

/-- Per-pixel work of `render` from `src/renderer.rs`: draw `sample_count`
samples (the jittered camera ray and path integration are the oracle
`sample i j s`, since they consume the thread-local RNG), reduce them with
`+` and `unwrap` (panicking if the iterator was empty), then divide by
`sample_count as f32`. -/
def render_pixel [LinearOrderedField F] (sample : ℤ → ℤ → ℤ → Vec3 F)
    (sample_count : ℤ) (i j : ℤ) : Except RPanic (Vec3 F) :=
  match reduceAdd ((intRange sample_count).map (fun s => sample i j s)) with
  | none => .error .unwrapNone
  | some v =>
    .ok ⟨v.x / (sample_count : F), v.y / (sample_count : F),
      v.z / (sample_count : F)⟩

/-- `render` from `src/renderer.rs`: one row per `i`, one pixel per `j`,
`sample_count` samples per pixel; a panic in any pixel aborts the whole
render (panics propagate through the iterators and the parallel join). -/
def render [LinearOrderedField F] (width height sample_count : ℤ)
    (sample : ℤ → ℤ → ℤ → Vec3 F) :
    Except RPanic (List (List (Vec3 F))) :=
  (intRange height).mapM (fun i =>
    (intRange width).mapM (fun j => render_pixel sample sample_count i j))

/-- A map that reports an emissive material everywhere and hits
immediately; used to exhibit the sixth bounce of `cast_ray`. -/
def emissiveEverywhereMap : SdfMapS ℚ :=
  ⟨fun _ => 0, fun _ => ⟨0, Material.Emissive 1⟩⟩

/-- Scene around `emissiveEverywhereMap`. -/
def emissiveScene : SceneS ℚ :=
  ⟨emissiveEverywhereMap, fun _ => 1⟩

/-- A map that reports a Lambertian material everywhere and hits
immediately; every path through it bounces until the budget is
exhausted. -/
def lambertianEverywhereMap : SdfMapS ℚ :=
  ⟨fun _ => 0, fun _ => ⟨0, Material.Lambertian ⟨1 / 2, 1 / 2, 1 / 2⟩⟩⟩

/-- Scene around `lambertianEverywhereMap`. -/
def lambertianScene : SceneS ℚ :=
  ⟨lambertianEverywhereMap, fun _ => 1⟩

/-- The half-space map `dist p = p.z` (the `Plane { normal: Z }` SDF of
`src/sdf.rs` tagged with one material): a true signed distance function,
1-Lipschitz and an exact lower bound on the distance to its zero set. -/
def planeMapQ : SdfMapS ℚ :=
  ⟨fun p => p.z, fun p => ⟨p.z, Material.Lambertian 1⟩⟩

/-- A map at constant distance `1` from everywhere (vacuously a lower
bound on the distance to its empty zero set). -/
def constOneMap : SdfMapS ℚ :=
  ⟨fun _ => 1, fun _ => ⟨1, Material.Lambertian 1⟩⟩

@[simp] theorem Vec3.add_x [Add F] (u v : Vec3 F) : (u + v).x = u.x + v.x := rfl
@[simp] theorem Vec3.add_y [Add F] (u v : Vec3 F) : (u + v).y = u.y + v.y := rfl
@[simp] theorem Vec3.add_z [Add F] (u v : Vec3 F) : (u + v).z = u.z + v.z := rfl
@[simp] theorem Vec3.sub_x [Sub F] (u v : Vec3 F) : (u - v).x = u.x - v.x := rfl
@[simp] theorem Vec3.sub_y [Sub F] (u v : Vec3 F) : (u - v).y = u.y - v.y := rfl
@[simp] theorem Vec3.sub_z [Sub F] (u v : Vec3 F) : (u - v).z = u.z - v.z := rfl
@[simp] theorem Vec3.neg_x [Neg F] (v : Vec3 F) : (-v).x = -v.x := rfl
@[simp] theorem Vec3.neg_y [Neg F] (v : Vec3 F) : (-v).y = -v.y := rfl
@[simp] theorem Vec3.neg_z [Neg F] (v : Vec3 F) : (-v).z = -v.z := rfl
@[simp] theorem Vec3.mul_x [Mul F] (u v : Vec3 F) : (u * v).x = u.x * v.x := rfl
@[simp] theorem Vec3.mul_y [Mul F] (u v : Vec3 F) : (u * v).y = u.y * v.y := rfl
@[simp] theorem Vec3.mul_z [Mul F] (u v : Vec3 F) : (u * v).z = u.z * v.z := rfl
@[simp] theorem Vec3.smul_x [Mul F] (a : F) (v : Vec3 F) : (a • v).x = a * v.x := rfl
@[simp] theorem Vec3.smul_y [Mul F] (a : F) (v : Vec3 F) : (a • v).y = a * v.y := rfl
@[simp] theorem Vec3.smul_z [Mul F] (a : F) (v : Vec3 F) : (a • v).z = a * v.z := rfl
@[simp] theorem Vec3.zero_x [Zero F] : (0 : Vec3 F).x = 0 := rfl
@[simp] theorem Vec3.zero_y [Zero F] : (0 : Vec3 F).y = 0 := rfl
@[simp] theorem Vec3.zero_z [Zero F] : (0 : Vec3 F).z = 0 := rfl
@[simp] theorem Vec3.one_x [One F] : (1 : Vec3 F).x = 1 := rfl
@[simp] theorem Vec3.one_y [One F] : (1 : Vec3 F).y = 1 := rfl
@[simp] theorem Vec3.one_z [One F] : (1 : Vec3 F).z = 1 := rfl

@[ext] theorem Vec3.ext' {u v : Vec3 F} (hx : u.x = v.x) (hy : u.y = v.y)
    (hz : u.z = v.z) : u = v := by
  cases u; cases v; simp_all

/-- Joint coherence of `distinfo` and `dist` for maps built from
`SdfObject` leaves and `Union` nodes (shared helper). -/
theorem MapTree.distinfo_distance [LinearOrderedField F] (t : MapTree F)
    (p : Vec3 F) : (t.distinfo p).distance = t.dist p := by
  induction t with
  | obj d m => rfl
  | union a b iha ihb =>
    simp only [MapTree.distinfo, MapTree.dist]
    by_cases h : (a.distinfo p).distance < (b.distinfo p).distance
    · rw [if_pos h, iha]
      exact (min_eq_left (le_of_lt (by rwa [iha, ihb] at h))).symm
    · rw [if_neg h, ihb]
      rw [iha, ihb] at h
      exact (min_eq_right (le_of_not_lt h)).symm

/-- C6: for every material-tagged map built from `SdfObject` leaves and
`Union` nodes, and every point `p`, `distinfo(p).distance` equals
`dist(p)`: the jointly derived distance-and-material result never
disagrees with the plain distance function. -/
theorem C6_distinfo_agrees_with_dist [LinearOrderedField F] (t : MapTree F)
    (p : Vec3 F) : (t.toMap.distinfo p).distance = t.toMap.dist p :=
  MapTree.distinfo_distance t p

/-- C5: for every pair of material-tagged maps and every point `p`, the
`Union`'s distance is the minimum of the children's distances, and
whenever one child's distance at `p` is strictly smaller, the `Union`'s
`distinfo` at `p` returns that child's material. -/
theorem C5_union_dist_and_material [LinearOrderedField F] (a b : MapTree F)
    (p : Vec3 F) :
    (MapTree.union a b).dist p = min (a.dist p) (b.dist p) ∧
    (a.dist p < b.dist p →
      ((MapTree.union a b).distinfo p).material = (a.distinfo p).material) ∧
    (b.dist p < a.dist p →
      ((MapTree.union a b).distinfo p).material = (b.distinfo p).material) := by
  refine ⟨rfl, ?_, ?_⟩
  · intro h
    simp only [MapTree.distinfo]
    rw [if_pos (by rwa [MapTree.distinfo_distance, MapTree.distinfo_distance])]
  · intro h
    simp only [MapTree.distinfo]
    have hnot : ¬ (a.distinfo p).distance < (b.distinfo p).distance := by
      rw [MapTree.distinfo_distance, MapTree.distinfo_distance]
      exact not_lt.mpr (le_of_lt h)
    rw [if_neg hnot]

/-- Witness for C5: two constant-distance objects, the left strictly
nearer. -/
theorem C5_witness :
    (MapTree.union (MapTree.obj (fun _ => (1 : ℚ)) (Material.Lambertian 1))
        (MapTree.obj (fun _ => (2 : ℚ)) (Material.Emissive 1))).dist 0 =
      min ((MapTree.obj (fun _ => (1 : ℚ)) (Material.Lambertian 1)).dist 0)
        ((MapTree.obj (fun _ => (2 : ℚ)) (Material.Emissive 1)).dist 0) ∧
    ((MapTree.union (MapTree.obj (fun _ => (1 : ℚ)) (Material.Lambertian 1))
        (MapTree.obj (fun _ => (2 : ℚ)) (Material.Emissive 1))).distinfo 0).material =
      ((MapTree.obj (fun _ => (1 : ℚ)) (Material.Lambertian 1)).distinfo 0).material := by
  obtain ⟨h1, h2, h3⟩ := C5_union_dist_and_material
    (MapTree.obj (fun _ => (1 : ℚ)) (Material.Lambertian 1))
    (MapTree.obj (fun _ => (2 : ℚ)) (Material.Emissive 1)) 0
  exact ⟨h1, h2 (by norm_num [MapTree.dist])⟩

/-- Fuel sufficiency of the sphere-tracing loop: whatever the scalar
operations and however the comparisons behave, the loop exits within the
remaining step budget because the integer step counter rises by one every
iteration and the `steps > MAX_STEPS` test forces an exit (shared
helper). -/
theorem ray_intersection_go_exits {F : Type} (fadd fmul : F → F → F)
    (fltB : F → F → Bool) (eps maxd : F) (mdist : Vec3 F → F)
    (minfo : Vec3 F → DistInfo F) (origin direction : Vec3 F) :
    ∀ (fuel : ℕ) (acc : F) (steps : ℤ), 1 ≤ fuel →
      MAX_STEPS + 1 - steps ≤ (fuel : ℤ) →
      ∃ r, ray_intersection_go fadd fmul fltB eps maxd mdist minfo origin
        direction fuel acc steps = some r := by
  intro fuel
  induction fuel with
  | zero => intro acc steps h _; omega
  | succ n ih =>
    intro acc steps _ hfuel
    simp only [ray_intersection_go]
    by_cases h1 :
        fltB (mdist (vadd2 fadd origin (vsmul2 fmul acc direction))) eps = true
    · exact ⟨_, by rw [if_pos h1]⟩
    · rw [if_neg h1]
      by_cases h2 :
          (fltB maxd (fadd acc (mdist (vadd2 fadd origin (vsmul2 fmul acc direction)))) ||
            decide (MAX_STEPS < steps + 1)) = true
      · exact ⟨_, by rw [if_pos h2]⟩
      · rw [if_neg h2]
        have h2' :
            (fltB maxd (fadd acc (mdist (vadd2 fadd origin (vsmul2 fmul acc direction)))) ||
              decide (MAX_STEPS < steps + 1)) = false := by
          simpa using h2
        have hsteps : ¬ MAX_STEPS < steps + 1 :=
          of_decide_eq_false (Bool.or_eq_false_iff.mp h2').2
        refine ih _ (steps + 1) (by omega) (by omega)

/-- C3: for every map, whatever values its distance function produces
(the scalar type, its addition, multiplication and both `<` comparisons
are arbitrary, covering IEEE NaN/Inf behaviour), and every origin and
direction, the `ray_intersection` loop started at `acc = 0`, `steps = 0`
exits with a definite result (a hit or a no-hit) within
`MAX_STEPS + 1 = 1001` iterations of fuel. -/
theorem C3_ray_intersection_terminates {F : Type} (fadd fmul : F → F → F)
    (fltB : F → F → Bool) (eps maxd : F) (mdist : Vec3 F → F)
    (minfo : Vec3 F → DistInfo F) (origin direction : Vec3 F) (acc0 : F) :
    ∃ r : Option (HitInfo F),
      ray_intersection_go fadd fmul fltB eps maxd mdist minfo origin direction
        (MAX_STEPS.toNat + 1) acc0 0 = some r :=
  ray_intersection_go_exits fadd fmul fltB eps maxd mdist minfo origin
    direction (MAX_STEPS.toNat + 1) acc0 0 (by norm_num)
    (by norm_num [MAX_STEPS])


/-- One-step unfolding of the sphere-tracing loop (shared helper; `simp`
cannot be pointed at the recursive equations without unfolding the very
large literal fuel, so a single `rw` step is used instead). -/
theorem ray_intersection_go_succ {F : Type} (fadd fmul : F → F → F)
    (fltB : F → F → Bool) (eps maxd : F) (mdist : Vec3 F → F)
    (minfo : Vec3 F → DistInfo F) (origin direction : Vec3 F) (fuel : ℕ)
    (acc : F) (steps : ℤ) :
    ray_intersection_go fadd fmul fltB eps maxd mdist minfo origin direction
      (fuel + 1) acc steps =
    (if fltB (mdist (vadd2 fadd origin (vsmul2 fmul acc direction))) eps then
      some (some ⟨vadd2 fadd origin (vsmul2 fmul
          (fadd acc (mdist (vadd2 fadd origin (vsmul2 fmul acc direction)))) direction),
        (minfo (vadd2 fadd origin (vsmul2 fmul
          (fadd acc (mdist (vadd2 fadd origin (vsmul2 fmul acc direction)))) direction))).material⟩)
    else if fltB maxd (fadd acc (mdist (vadd2 fadd origin (vsmul2 fmul acc direction)))) ||
        decide (MAX_STEPS < steps + 1) then
      some none
    else
      ray_intersection_go fadd fmul fltB eps maxd mdist minfo origin direction
        fuel (fadd acc (mdist (vadd2 fadd origin (vsmul2 fmul acc direction))))
        (steps + 1)) := rfl

/-- A map whose distance at the starting position is below `SURFACE_DIST`
makes `ray_intersection` return a hit in its very first iteration, at the
position advanced by that first distance (shared helper). -/
theorem ray_intersection_hit_eq [LinearOrderedField F] (m : SdfMapS F)
    (o d : Vec3 F)
    (h : m.dist (vadd2 (fun a b => a + b) o (vsmul2 (fun a b => a * b) 0 d)) <
      SURFACE_DIST) :
    m.ray_intersection o d = some
      ⟨vadd2 (fun a b => a + b) o (vsmul2 (fun a b => a * b)
          (0 + m.dist (vadd2 (fun a b => a + b) o (vsmul2 (fun a b => a * b) 0 d))) d),
        (m.distinfo (vadd2 (fun a b => a + b) o (vsmul2 (fun a b => a * b)
          (0 + m.dist (vadd2 (fun a b => a + b) o (vsmul2 (fun a b => a * b) 0 d))) d))).material⟩ := by
  unfold SdfMapS.ray_intersection
  rw [ray_intersection_go_succ]
  rw [if_pos (decide_eq_true h)]
  rfl

/-- Every ray into `emissiveEverywhereMap` hits immediately with the
emissive unit material (shared helper). -/
theorem emissive_hit (o d : Vec3 ℚ) :
    emissiveEverywhereMap.ray_intersection o d = some
      ⟨vadd2 (fun a b => a + b) o (vsmul2 (fun a b => a * b)
          (0 + emissiveEverywhereMap.dist (vadd2 (fun a b => a + b) o
            (vsmul2 (fun a b => a * b) 0 d))) d),
        Material.Emissive 1⟩ :=
  ray_intersection_hit_eq emissiveEverywhereMap o d
    (by norm_num [emissiveEverywhereMap, SURFACE_DIST])

/-- Every ray into `lambertianEverywhereMap` hits immediately with the
Lambertian half-grey material (shared helper). -/
theorem lambertian_hit (o d : Vec3 ℚ) :
    lambertianEverywhereMap.ray_intersection o d = some
      ⟨vadd2 (fun a b => a + b) o (vsmul2 (fun a b => a * b)
          (0 + lambertianEverywhereMap.dist (vadd2 (fun a b => a + b) o
            (vsmul2 (fun a b => a * b) 0 d))) d),
        Material.Lambertian ⟨1 / 2, 1 / 2, 1 / 2⟩⟩ :=
  ray_intersection_hit_eq lambertianEverywhereMap o d
    (by norm_num [lambertianEverywhereMap, SURFACE_DIST])

/-- Counterexample to C2 as stated: in `src/renderer.rs` the loop guard is
`bounces > MAX_BOUNCES`, so the loop body still executes when the bounce
counter equals `MAX_BOUNCES = 5` — entering the loop with `bounces = 5`
consults the scene once more (here hitting an emitter and returning its
radiance, `(1,1,1)`) instead of returning black as a body guarded by
`bounces < MAX_BOUNCES` would. -/
theorem C2_counterexample :
    cast_ray_go (fun a => a) emissiveScene (fun _ => 0) 1 0 0 1 MAX_BOUNCES ≠ 0 := by
  simp only [cast_ray_go]
  rw [if_neg (by norm_num [MAX_BOUNCES])]
  rw [show emissiveScene.map = emissiveEverywhereMap from rfl, emissive_hit]
  show ((1 : Vec3 ℚ) * 1) ≠ 0
  intro hc
  have hx := congrArg Vec3.x hc
  simp at hx

/-- C2 (amended): in `src/renderer.rs` the `cast_ray` loop body executes
only while `bounces ≤ MAX_BOUNCES` (entering with `bounces = 6`
immediately returns black), when the budget is exhausted with every
intersection a Lambertian hit the function returns black, and in the
`src/main.rs` variant the body indeed executes only while
`bounces < MAX_BOUNCES = 5` (entering with `bounces = 5` immediately
returns black). -/
theorem C2_bounce_budget [LinearOrderedField F] (sq : F → F) (scene : SceneS F)
    (dirs : ℕ → Vec3 F) :
    (∀ (fuel : ℕ) (origin direction acc : Vec3 F),
      cast_ray_go sq scene dirs (fuel + 1) origin direction acc
        (MAX_BOUNCES + 1) = 0) ∧
    ((∀ o d : Vec3 F, ∃ (pos c : Vec3 F),
        scene.map.ray_intersection o d = some ⟨pos, Material.Lambertian c⟩) →
      ∀ o d : Vec3 F, cast_ray sq scene dirs o d = 0) ∧
    (∀ (m : SdfMapS F) (fuel : ℕ) (origin ray acc : Vec3 F),
      cast_ray_main_go sq m dirs (fuel + 1) origin ray acc MAX_BOUNCES = 0) := by
  refine ⟨?_, ?_, ?_⟩
  · intro fuel origin direction acc
    simp only [cast_ray_go]
    rw [if_pos (by norm_num [MAX_BOUNCES])]
  · intro hL o d
    have key : ∀ (fuel : ℕ) (origin direction acc : Vec3 F) (bounces : ℤ),
        bounces ≤ MAX_BOUNCES + 1 → MAX_BOUNCES + 2 - bounces ≤ (fuel : ℤ) →
        cast_ray_go sq scene dirs fuel origin direction acc bounces = 0 := by
      intro fuel
      induction fuel with
      | zero =>
        intro origin direction acc bounces h1 h2
        simp only [MAX_BOUNCES] at h1 h2
        omega
      | succ n ih =>
        intro origin direction acc bounces h1 h2
        simp only [cast_ray_go]
        by_cases hb : MAX_BOUNCES < bounces
        · rw [if_pos hb]
        · rw [if_neg hb]
          obtain ⟨pos, c, hit⟩ := hL origin direction
          rw [hit]
          exact ih _ _ _ (bounces + 1) (by simp only [MAX_BOUNCES] at *; omega)
            (by simp only [MAX_BOUNCES] at *; omega)
    exact key _ o d 1 0 (by norm_num [MAX_BOUNCES]) (by norm_num [MAX_BOUNCES])
  · intro m fuel origin ray acc
    simp only [cast_ray_main_go]
    rw [if_pos le_rfl]

/-- Witness for C2: a scene whose every intersection is a Lambertian hit
exhausts the bounce budget and yields black. -/
theorem C2_witness :
    cast_ray (fun a => a) lambertianScene (fun _ => 0) 0 0 = 0 := by
  refine (C2_bounce_budget (fun a => a) lambertianScene (fun _ => 0)).2.1 ?_ 0 0
  intro o d
  exact ⟨_, ⟨1 / 2, 1 / 2, 1 / 2⟩, lambertian_hit o d⟩

/-- Squared norm of a scalar multiple (shared helper). -/
theorem normSq_smul [LinearOrderedField F] (a : F) (v : Vec3 F) :
    normSq (a • v) = a * a * normSq v := by
  simp [normSq]
  ring

/-- Arithmetic core of the no-overstep invariant: if `a` differs from a
non-negative `b` by at most `b` in square, then `a` is non-negative
(shared helper). -/
theorem nonneg_of_sq_close [LinearOrderedField F] {a b : F}
    (h : (a - b) * (a - b) ≤ b * b) (hb : 0 ≤ b) : 0 ≤ a := by
  nlinarith

/-- C1 (amended): for every map whose distance function is 1-Lipschitz
(stated squared, which is equivalent) and a lower bound on the distance
to its zero set, and every ray with a unit-length direction whose origin
has non-negative map distance, the `ray_intersection` loop never
oversteps: the map distance at every position the loop evaluates is
non-negative and the accumulated parameter is non-decreasing across
iterations.  `traceAcc` is the loop's `acc` sequence; the last conjunct
identifies it with the recursion of `ray_intersection_go` whenever no
exit is taken. -/
theorem C1_no_overstep [LinearOrderedField F] (m : SdfMapS F)
    (origin direction : Vec3 F)
    (hlip : ∀ p q : Vec3 F,
      (m.dist p - m.dist q) * (m.dist p - m.dist q) ≤ normSq (p - q))
    (hlb : ∀ p q : Vec3 F, m.dist q = 0 →
      m.dist p ≤ 0 ∨ m.dist p * m.dist p ≤ normSq (p - q))
    (hdir : normSq direction = 1)
    (h0 : 0 ≤ m.dist origin) :
    ∀ n : ℕ,
      0 ≤ m.dist (origin + traceAcc m origin direction n • direction) ∧
      traceAcc m origin direction n ≤ traceAcc m origin direction (n + 1) ∧
      (∀ (fuel : ℕ) (steps : ℤ),
        ¬ m.dist (origin + traceAcc m origin direction n • direction) < SURFACE_DIST →
        ¬ MAX_DIST < traceAcc m origin direction (n + 1) →
        ¬ MAX_STEPS < steps + 1 →
        ray_intersection_go (fun a b => a + b) (fun a b => a * b)
            (fun a b => decide (a < b)) SURFACE_DIST MAX_DIST m.dist m.distinfo
            origin direction (fuel + 1) (traceAcc m origin direction n) steps =
          ray_intersection_go (fun a b => a + b) (fun a b => a * b)
            (fun a b => decide (a < b)) SURFACE_DIST MAX_DIST m.dist m.distinfo
            origin direction fuel (traceAcc m origin direction (n + 1)) (steps + 1)) := by
  have h00 : origin + traceAcc m origin direction 0 • direction = origin := by
    ext <;> simp [traceAcc]
  have key : ∀ n, 0 ≤ m.dist (origin + traceAcc m origin direction n • direction) := by
    intro n
    induction n with
    | zero => rw [h00]; exact h0
    | succ n ih =>
      have hstep :
          (origin + traceAcc m origin direction (n + 1) • direction) -
            (origin + traceAcc m origin direction n • direction) =
          m.dist (origin + traceAcc m origin direction n • direction) • direction := by
        ext <;> simp [traceAcc] <;> ring
      have hlq := hlip (origin + traceAcc m origin direction (n + 1) • direction)
        (origin + traceAcc m origin direction n • direction)
      rw [hstep, normSq_smul, hdir, mul_one] at hlq
      exact nonneg_of_sq_close hlq ih
  intro n
  refine ⟨key n, ?_, ?_⟩
  · have : traceAcc m origin direction (n + 1) =
        traceAcc m origin direction n +
          m.dist (origin + traceAcc m origin direction n • direction) := rfl
    rw [this]
    linarith [key n]
  · intro fuel steps hhit hmaxd hsteps
    have hc1 : ¬ ((fun a b => decide (a < b))
        (m.dist (vadd2 (fun a b : F => a + b) origin
          (vsmul2 (fun a b : F => a * b) (traceAcc m origin direction n) direction)))
        SURFACE_DIST = true) := by
      simp only [decide_eq_true_eq]
      exact hhit
    have hc2 : ¬ (((fun a b => decide (a < b)) MAX_DIST
          ((fun a b : F => a + b) (traceAcc m origin direction n)
            (m.dist (vadd2 (fun a b : F => a + b) origin
              (vsmul2 (fun a b : F => a * b) (traceAcc m origin direction n) direction)))) ||
        decide (MAX_STEPS < steps + 1)) = true) := by
      simp only [Bool.or_eq_true, decide_eq_true_eq]
      exact not_or.mpr ⟨hmaxd, hsteps⟩
    rw [ray_intersection_go_succ, if_neg hc1, if_neg hc2]
    rfl

/-- Witness for C1: the constant-distance-1 map, origin `0`, unit
direction along the x-axis, checked at iteration 2. -/
theorem C1_witness :
    0 ≤ constOneMap.dist ((⟨0, 0, 0⟩ : Vec3 ℚ) +
      traceAcc constOneMap ⟨0, 0, 0⟩ ⟨1, 0, 0⟩ 2 • (⟨1, 0, 0⟩ : Vec3 ℚ)) ∧
    traceAcc constOneMap ⟨0, 0, 0⟩ ⟨1, 0, 0⟩ 2 ≤
      traceAcc constOneMap ⟨0, 0, 0⟩ ⟨1, 0, 0⟩ 3 := by
  have h := C1_no_overstep constOneMap ⟨0, 0, 0⟩ ⟨1, 0, 0⟩
    (by intro p q; simp [constOneMap, normSq]
        nlinarith [mul_self_nonneg (p.x - q.x), mul_self_nonneg (p.y - q.y),
          mul_self_nonneg (p.z - q.z)])
    (by intro p q hq; simp [constOneMap] at hq)
    (by norm_num [normSq])
    (by norm_num [constOneMap]) 2
  exact ⟨h.1, h.2.1⟩

/-- Counterexample to C1 as stated: with a direction of length 2 the same
hypotheses hold (the half-space map `dist p = p.z` is 1-Lipschitz and an
exact lower bound, and the origin `(0,0,1)` has distance 1 ≥ 0), yet the
second position evaluated by the `ray_intersection` loop, reached after
the first step `acc = 1`, has strictly negative map distance: the loop
overstepped through the surface, and the returned "hit" lies at the
original origin, off the zero set.  A unit-length direction is required
for the claim to hold. -/
theorem C1_counterexample :
    (∀ p q : Vec3 ℚ, (planeMapQ.dist p - planeMapQ.dist q) *
        (planeMapQ.dist p - planeMapQ.dist q) ≤ normSq (p - q)) ∧
    (∀ p q : Vec3 ℚ, planeMapQ.dist q = 0 →
      planeMapQ.dist p ≤ 0 ∨ planeMapQ.dist p * planeMapQ.dist p ≤ normSq (p - q)) ∧
    0 ≤ planeMapQ.dist ⟨0, 0, 1⟩ ∧
    planeMapQ.dist ((⟨0, 0, 1⟩ : Vec3 ℚ) +
      traceAcc planeMapQ ⟨0, 0, 1⟩ ⟨0, 0, -2⟩ 1 • (⟨0, 0, -2⟩ : Vec3 ℚ)) < 0 := by
  refine ⟨?_, ?_, ?_, ?_⟩
  · intro p q
    simp [planeMapQ, normSq]
    nlinarith [mul_self_nonneg (p.x - q.x), mul_self_nonneg (p.y - q.y),
      mul_self_nonneg (p.z - q.z)]
  · intro p q hq
    right
    simp [planeMapQ, normSq] at hq ⊢
    rw [hq]
    nlinarith [mul_self_nonneg (p.x - q.x), mul_self_nonneg (p.y - q.y)]
  · norm_num [planeMapQ]
  · norm_num [planeMapQ, traceAcc]

/-- Quantitative behaviour of the `SmoothUnion` blend (shared helper): for
positive blend radius `k` the blended distance never exceeds `min`, and
falls short of it by at most `k / 4`. -/
theorem smooth_union_bounds [LinearOrderedField F] (d1 d2 k : F) (hk : 0 < k) :
    smooth_union_dist d1 d2 k ≤ min d1 d2 ∧
    min d1 d2 - smooth_union_dist d1 d2 k ≤ k / 4 := by
  have hk0 : k ≠ 0 := ne_of_gt hk
  simp only [smooth_union_dist, clampF]
  generalize hgen : 1 / 2 + 1 / 2 * (d2 - d1) / k = r
  have hrval : r * (2 * k) = k + (d2 - d1) := by
    rw [← hgen]; field_simp
  rcases le_total r 0 with h0 | h0
  · have hd : k + (d2 - d1) ≤ 0 := by nlinarith
    have hmin : min d1 d2 = d2 := min_eq_right (by linarith)
    rw [max_eq_right h0, min_eq_left zero_le_one, hmin]
    constructor
    · nlinarith
    · nlinarith
  · rw [max_eq_left h0]
    rcases le_total r 1 with h1 | h1
    · rw [min_eq_left h1]
      have hsub : d2 - d1 = 2 * k * r - k := by linarith [hrval]
      have hle1 : r * d1 + (1 - r) * d2 - k * r * (1 - r) ≤ d1 := by
        nlinarith [mul_nonneg (mul_nonneg hk.le (sub_nonneg.2 h1)) (sub_nonneg.2 h1)]
      have hle2 : r * d1 + (1 - r) * d2 - k * r * (1 - r) ≤ d2 := by
        nlinarith [mul_nonneg (mul_nonneg hk.le h0) h0]
      refine ⟨le_min hle1 hle2, ?_⟩
      rcases le_total d1 d2 with hd | hd
      · rw [min_eq_left hd]
        nlinarith [mul_nonneg (by nlinarith : (0 : F) ≤ 2 * k * r - k)
          (by linarith : (0 : F) ≤ 3 / 2 - r)]
      · rw [min_eq_right hd]
        nlinarith [mul_nonneg (by nlinarith : (0 : F) ≤ k - 2 * k * r)
          (by linarith : (0 : F) ≤ r + 1 / 2)]
    · rw [min_eq_right h1]
      have hd : k ≤ d2 - d1 := by nlinarith
      have hmin : min d1 d2 = d1 := min_eq_left (by linarith)
      rw [hmin]
      constructor
      · nlinarith
      · nlinarith

/-- C7: for every pair of SDFs and every point, for every blend parameter
`k > 0` the `SmoothUnion` distance never exceeds the plain union
`min(d1, d2)` (so it remains a lower bound whenever `min` is), and it
converges to `min(d1, d2)` as `k → 0` (stated as an ε–δ limit from the
right; quantitatively the gap is at most `k / 4`). -/
theorem C7_smooth_union_lower_bound_and_limit [LinearOrderedField F]
    (f g : Vec3 F → F) (p : Vec3 F) :
    (∀ k : F, 0 < k → smooth_union_dist (f p) (g p) k ≤ min (f p) (g p)) ∧
    (∀ ε : F, 0 < ε → ∃ δ : F, 0 < δ ∧ ∀ k : F, 0 < k → k < δ →
      |smooth_union_dist (f p) (g p) k - min (f p) (g p)| < ε) := by
  refine ⟨fun k hk => (smooth_union_bounds (f p) (g p) k hk).1, ?_⟩
  intro ε hε
  refine ⟨ε, hε, fun k hk hkδ => ?_⟩
  obtain ⟨hle, hgap⟩ := smooth_union_bounds (f p) (g p) k hk
  rw [abs_sub_comm, abs_of_nonneg (by linarith)]
  linarith

/-- Witness for C7: the lower-bound part at `d1 = 3`, `d2 = 5`, `k = 1`,
and the ε–δ part at `ε = 1`. -/
theorem C7_witness :
    smooth_union_dist (3 : ℚ) 5 1 ≤ min 3 5 ∧
    (∃ δ : ℚ, 0 < δ ∧ ∀ k : ℚ, 0 < k → k < δ →
      |smooth_union_dist (3 : ℚ) 5 k - min 3 5| < 1) :=
  ⟨(C7_smooth_union_lower_bound_and_limit (fun _ => (3 : ℚ)) (fun _ => 5) 0).1 1
      (by norm_num),
   (C7_smooth_union_lower_bound_and_limit (fun _ => (3 : ℚ)) (fun _ => 5) 0).2 1
      (by norm_num)⟩

/-- C4: the claim says an output-file creation failure is reported to the
caller of `export_ppm` as `Err`.  The code (`src/ppm.rs` line 17) instead
calls `File::create(path).unwrap()`, so a creation failure panics and
aborts the process; only the later `writeln!`/`flush` failures are
returned as `Err`.  This theorem evaluates the model at the failing
input: for every error `e` and non-empty pixel grid, the outcome is a
panic, not `ExportOutcome.error e`. -/
theorem C4_export_ppm_panics_on_create_failure {F E : Type} (e : E)
    (wr : ℕ → Except E Unit) (flushRes : Except E Unit)
    (row : List (Vec3 F)) (rest : List (List (Vec3 F))) :
    export_ppm (.error e) wr flushRes (row :: rest) = .panicked ∧
    export_ppm (.error e) wr flushRes (row :: rest) ≠ .error e := by
  refine ⟨rfl, ?_⟩
  intro h
  exact ExportOutcome.noConfusion h

/-- First-error propagation of `List.mapM` in the `Except` monad (shared
helper). -/
theorem mapM_except_err {E α β : Type} (f : α → Except E β) (a : α)
    (t : List α) (e : E) (h : f a = .error e) :
    (a :: t).mapM f = .error e := by
  rw [List.mapM_cons, h]
  rfl

/-- All-successes behaviour of `List.mapM` in the `Except` monad (shared
helper): if every element maps to an `ok` value satisfying `P`, the whole
list maps to an `ok` list of the same length whose members satisfy `P`. -/
theorem mapM_except_ok {E α β : Type} {P : β → Prop} (f : α → Except E β) :
    ∀ l : List α, (∀ a ∈ l, ∃ b, f a = .ok b ∧ P b) →
    ∃ l' : List β, l.mapM f = .ok l' ∧ l'.length = l.length ∧ ∀ b ∈ l', P b := by
  intro l
  induction l with
  | nil => intro _; exact ⟨[], rfl, rfl, by simp⟩
  | cons a t ih =>
    intro h
    obtain ⟨b, hb, hPb⟩ := h a (List.mem_cons_self a t)
    obtain ⟨t', ht', hlen, hP⟩ := ih (fun x hx => h x (List.mem_cons_of_mem a hx))
    refine ⟨b :: t', ?_, by simp [hlen], ?_⟩
    · rw [List.mapM_cons, hb, ht']
      rfl
    · intro c hc
      rcases List.mem_cons.mp hc with h1 | h2
      · rw [h1]; exact hPb
      · exact hP c h2

/-- A positive Rust range `0..n` starts with `0` (shared helper). -/
theorem intRange_eq_cons (n : ℤ) (h : 1 ≤ n) :
    ∃ t, intRange n = 0 :: t := by
  obtain ⟨m, hm⟩ : ∃ m, n.toNat = m + 1 := ⟨n.toNat - 1, by omega⟩
  unfold intRange
  rw [hm, List.range_succ_eq_map, List.map_cons]
  exact ⟨_, rfl⟩

/-- Length of the Rust range `0..n` (shared helper). -/
theorem intRange_length (n : ℤ) : (intRange n).length = n.toNat := by
  unfold intRange
  rw [List.length_map, List.length_range]

/-- Counterexample to C10 as stated: with `width = height = 0` there is no
pixel, the empty-iterator `reduce` is never reached, and `render` with
`sample_count = 0` returns the empty grid instead of panicking. -/
theorem C10_counterexample :
    render 0 0 0 (fun _ _ _ => (0 : Vec3 ℚ)) = Except.ok [] := rfl

/-- C10 (amended): `render` panics when `sample_count = 0` and there is at
least one pixel (`width ≥ 1` and `height ≥ 1`), because the per-pixel
sample accumulation reduces an empty iterator and unwraps the resulting
`None`; for every `sample_count ≥ 1` that unwrap branch is unreachable and
`render` returns a grid of exactly `height` rows, each of exactly `width`
pixels. -/
theorem C10_render_shape [LinearOrderedField F]
    (sample : ℤ → ℤ → ℤ → Vec3 F) (width height sample_count : ℤ) :
    (sample_count = 0 → 1 ≤ width → 1 ≤ height →
      render width height sample_count sample = .error .unwrapNone) ∧
    (1 ≤ sample_count → ∃ g, render width height sample_count sample = .ok g ∧
      g.length = height.toNat ∧ ∀ row ∈ g, row.length = width.toNat) := by
  constructor
  · intro hsc hw hh
    subst hsc
    obtain ⟨th, hth⟩ := intRange_eq_cons height hh
    obtain ⟨tw, htw⟩ := intRange_eq_cons width hw
    unfold render
    rw [hth]
    apply mapM_except_err
    rw [htw]
    apply mapM_except_err
    rfl
  · intro hsc
    have hpix : ∀ i j : ℤ, ∃ v, render_pixel sample sample_count i j = .ok v := by
      intro i j
      obtain ⟨n, hn⟩ : ∃ n, sample_count.toNat = n + 1 :=
        ⟨sample_count.toNat - 1, by omega⟩
      unfold render_pixel intRange
      rw [hn, List.range_succ_eq_map]
      simp only [List.map_cons, reduceAdd]
      exact ⟨_, rfl⟩
    have hrow : ∀ i : ℤ, ∃ row,
        (intRange width).mapM (fun j => render_pixel sample sample_count i j) =
          .ok row ∧ row.length = width.toNat := by
      intro i
      obtain ⟨row, h1, h2, -⟩ :=
        @mapM_except_ok RPanic ℤ (Vec3 F) (fun _ => True)
          (fun j => render_pixel sample sample_count i j) (intRange width)
          (fun j _ => by obtain ⟨v, hv⟩ := hpix i j; exact ⟨v, hv, trivial⟩)
      refine ⟨row, h1, ?_⟩
      rw [h2, intRange_length]
    obtain ⟨g, hg, hglen, hgP⟩ :=
      @mapM_except_ok RPanic ℤ (List (Vec3 F)) (fun row => row.length = width.toNat)
        (fun i => (intRange width).mapM (fun j => render_pixel sample sample_count i j))
        (intRange height) (fun i _ => hrow i)
    refine ⟨g, hg, ?_, hgP⟩
    rw [hglen, intRange_length]

/-- Witness for C10: at `width = 2`, `height = 3`, a zero sample count
panics and a single sample per pixel yields a 3 × 2 grid. -/
theorem C10_witness :
    render 2 3 0 (fun _ _ _ => (0 : Vec3 ℚ)) = .error .unwrapNone ∧
    (∃ g, render 2 3 1 (fun _ _ _ => (0 : Vec3 ℚ)) = .ok g ∧
      g.length = (3 : ℤ).toNat ∧ ∀ row ∈ g, row.length = (2 : ℤ).toNat) :=
  ⟨(C10_render_shape (fun _ _ _ => (0 : Vec3 ℚ)) 2 3 0).1 rfl (by norm_num)
      (by norm_num),
   (C10_render_shape (fun _ _ _ => (0 : Vec3 ℚ)) 2 3 1).2 (by norm_num)⟩

/-- C9: in `cast_ray`, along any path whose intersections are all
Lambertian materials with albedo components in `[0, 1]`, every component
of the accumulated throughput is non-negative and non-increasing at each
bounce.  `path_trace` is the sequence of loop states; the last conjunct
identifies one `bounce_step` with one unfolding of the `cast_ray` loop
whenever the bounce consults a Lambertian hit within the budget. -/
theorem C9_throughput_monotone [LinearOrderedField F] (sq : F → F)
    (scene : SceneS F) (dirs : ℕ → Vec3 F) (origin direction : Vec3 F)
    (hmat : ∀ o d pos c : Vec3 F,
      scene.map.ray_intersection o d = some ⟨pos, Material.Lambertian c⟩ →
      vnonneg c ∧ vle c 1) :
    ∀ n : ℕ,
      vnonneg (path_trace sq scene dirs origin direction n).acc ∧
      vle (path_trace sq scene dirs origin direction (n + 1)).acc
        (path_trace sq scene dirs origin direction n).acc ∧
      (∀ (fuel : ℕ) (pos c : Vec3 F), (n : ℤ) ≤ MAX_BOUNCES →
        scene.map.ray_intersection
            (path_trace sq scene dirs origin direction n).origin
            (path_trace sq scene dirs origin direction n).direction =
          some ⟨pos, Material.Lambertian c⟩ →
        cast_ray_go sq scene dirs (fuel + 1)
            (path_trace sq scene dirs origin direction n).origin
            (path_trace sq scene dirs origin direction n).direction
            (path_trace sq scene dirs origin direction n).acc (n : ℤ) =
          cast_ray_go sq scene dirs fuel
            (path_trace sq scene dirs origin direction (n + 1)).origin
            (path_trace sq scene dirs origin direction (n + 1)).direction
            (path_trace sq scene dirs origin direction (n + 1)).acc
            ((n : ℤ) + 1)) := by
  have hstep : ∀ n : ℕ,
      vnonneg (path_trace sq scene dirs origin direction n).acc →
      vnonneg (path_trace sq scene dirs origin direction (n + 1)).acc ∧
      vle (path_trace sq scene dirs origin direction (n + 1)).acc
        (path_trace sq scene dirs origin direction n).acc := by
    intro n ih
    show vnonneg (bounce_step sq scene dirs n _).acc ∧
      vle (bounce_step sq scene dirs n _).acc _
    unfold bounce_step
    cases h : scene.map.ray_intersection
        (path_trace sq scene dirs origin direction n).origin
        (path_trace sq scene dirs origin direction n).direction with
    | none => exact ⟨ih, le_refl _, le_refl _, le_refl _⟩
    | some hit_info =>
      cases hit_info with
      | mk pos mat =>
        cases mat with
        | Emissive c => exact ⟨ih, le_refl _, le_refl _, le_refl _⟩
        | Lambertian c =>
          obtain ⟨⟨hc1, hc2, hc3⟩, hd1, hd2, hd3⟩ := hmat _ _ pos c h
          obtain ⟨ha1, ha2, ha3⟩ := ih
          refine ⟨⟨?_, ?_, ?_⟩, ?_, ?_, ?_⟩
          · exact mul_nonneg hc1 ha1
          · exact mul_nonneg hc2 ha2
          · exact mul_nonneg hc3 ha3
          · exact mul_le_of_le_one_left ha1 hd1
          · exact mul_le_of_le_one_left ha2 hd2
          · exact mul_le_of_le_one_left ha3 hd3
  have hnn : ∀ n : ℕ, vnonneg (path_trace sq scene dirs origin direction n).acc := by
    intro n
    induction n with
    | zero => exact ⟨zero_le_one, zero_le_one, zero_le_one⟩
    | succ n ih => exact (hstep n ih).1
  intro n
  refine ⟨hnn n, (hstep n (hnn n)).2, ?_⟩
  intro fuel pos c hn hhit
  simp only [cast_ray_go]
  rw [if_neg (not_lt.2 hn), hhit]
  show cast_ray_go sq scene dirs fuel _ _ _ _ = cast_ray_go sq scene dirs fuel _ _ _ _
  have hpt : path_trace sq scene dirs origin direction (n + 1) =
      bounce_step sq scene dirs n (path_trace sq scene dirs origin direction n) := rfl
  rw [hpt]
  unfold bounce_step
  rw [hhit]
  simp only [Int.toNat_natCast]

/-- Witness for C9: the all-Lambertian scene with albedo `(1/2,1/2,1/2)`,
checked at bounce 1. -/
theorem C9_witness :
    vnonneg (path_trace (fun a => a) lambertianScene (fun _ => 0)
      0 0 1).acc ∧
    vle (path_trace (fun a => a) lambertianScene (fun _ => 0) 0 0 2).acc
      (path_trace (fun a => a) lambertianScene (fun _ => 0) 0 0 1).acc := by
  have hyp : ∀ o d pos c : Vec3 ℚ,
      lambertianScene.map.ray_intersection o d =
        some ⟨pos, Material.Lambertian c⟩ →
      vnonneg c ∧ vle c 1 := by
    intro o d pos c h
    rw [show lambertianScene.map = lambertianEverywhereMap from rfl,
      lambertian_hit] at h
    simp only [Option.some.injEq, HitInfo.mk.injEq, Material.Lambertian.injEq] at h
    obtain ⟨-, hc⟩ := h
    rw [← hc]
    refine ⟨⟨?_, ?_, ?_⟩, ?_, ?_, ?_⟩ <;> norm_num
  have h := C9_throughput_monotone (fun a => a) lambertianScene (fun _ => 0)
    0 0 hyp 1
  exact ⟨h.1, h.2.1⟩

/-- A ray that is still too far at its first probe but within the trace
range reaches a hit at its second probe (shared helper): the loop takes
one step of size `dist(origin)` and exits at the advanced position. -/
theorem ray_intersection_hit_second [LinearOrderedField F] (m : SdfMapS F)
    (o d : Vec3 F)
    (h0 : ¬ m.dist (vadd2 (fun a b => a + b) o (vsmul2 (fun a b => a * b) 0 d)) <
      SURFACE_DIST)
    (h1 : ¬ MAX_DIST <
      0 + m.dist (vadd2 (fun a b => a + b) o (vsmul2 (fun a b => a * b) 0 d)))
    (h2 : m.dist (vadd2 (fun a b => a + b) o (vsmul2 (fun a b => a * b)
        (0 + m.dist (vadd2 (fun a b => a + b) o (vsmul2 (fun a b => a * b) 0 d))) d)) <
      SURFACE_DIST) :
    m.ray_intersection o d = some
      ⟨vadd2 (fun a b => a + b) o (vsmul2 (fun a b => a * b)
          (0 + m.dist (vadd2 (fun a b => a + b) o (vsmul2 (fun a b => a * b) 0 d)) +
            m.dist (vadd2 (fun a b => a + b) o (vsmul2 (fun a b => a * b)
              (0 + m.dist (vadd2 (fun a b => a + b) o (vsmul2 (fun a b => a * b) 0 d))) d))) d),
        (m.distinfo (vadd2 (fun a b => a + b) o (vsmul2 (fun a b => a * b)
          (0 + m.dist (vadd2 (fun a b => a + b) o (vsmul2 (fun a b => a * b) 0 d)) +
            m.dist (vadd2 (fun a b => a + b) o (vsmul2 (fun a b => a * b)
              (0 + m.dist (vadd2 (fun a b => a + b) o (vsmul2 (fun a b => a * b) 0 d))) d))) d))).material⟩ := by
  have hc2 : ¬ (((fun a b => decide (a < b)) MAX_DIST
        ((fun a b : F => a + b) 0
          (m.dist (vadd2 (fun a b : F => a + b) o
            (vsmul2 (fun a b : F => a * b) 0 d)))) ||
      decide (MAX_STEPS < (0 : ℤ) + 1)) = true) := by
    simp only [Bool.or_eq_true, decide_eq_true_eq]
    push_neg
    exact ⟨not_lt.mp h1, by norm_num [MAX_STEPS]⟩
  unfold SdfMapS.ray_intersection
  rw [ray_intersection_go_succ]
  rw [if_neg (by simp only [decide_eq_true_eq]; exact h0)]
  rw [if_neg hc2]
  rw [show MAX_STEPS.toNat = 999 + 1 from rfl]
  rw [ray_intersection_go_succ]
  rw [if_pos (decide_eq_true h2)]
  rfl

/-- Counterexample to C8 as stated: a unit sphere probed from `(0,0,100)`,
aimed straight at the center, is outside the sphere, yet `ray_intersection`
returns `none`: the very first step makes `acc = 99 > MAX_DIST = 30` and
the tracer reports a miss.  The claim needs the additional hypothesis that
the origin is within the trace range (`|origin| - radius ≤ MAX_DIST`). -/
theorem C8_counterexample :
    (MapTree.obj (sphere_dist Real.sqrt 1)
      (Material.Emissive 1)).toMap.ray_intersection ⟨0, 0, 100⟩ ⟨0, 0, -1⟩ =
      none := by
  have hd0 : (MapTree.obj (sphere_dist Real.sqrt 1)
      (Material.Emissive 1)).toMap.dist
      (vadd2 (fun a b => a + b) (⟨0, 0, 100⟩ : Vec3 ℝ)
        (vsmul2 (fun a b => a * b) 0 ⟨0, 0, -1⟩)) = 99 := by
    have hP0 : vadd2 (fun a b => a + b) (⟨0, 0, 100⟩ : Vec3 ℝ)
        (vsmul2 (fun a b => a * b) 0 ⟨0, 0, -1⟩) = ⟨0, 0, 100⟩ := by
      ext <;> simp [vadd2, vsmul2]
    rw [hP0]
    show Real.sqrt ((0 : ℝ) * 0 + 0 * 0 + 100 * 100) - 1 = 99
    rw [show (0 : ℝ) * 0 + 0 * 0 + 100 * 100 = 100 ^ 2 by norm_num,
      Real.sqrt_sq (by norm_num : (0 : ℝ) ≤ 100)]
    norm_num
  have hc1 : ¬ ((fun a b => decide (a < b))
      ((MapTree.obj (sphere_dist Real.sqrt 1)
        (Material.Emissive 1)).toMap.dist
        (vadd2 (fun a b => a + b) (⟨0, 0, 100⟩ : Vec3 ℝ)
          (vsmul2 (fun a b => a * b) 0 ⟨0, 0, -1⟩)))
      SURFACE_DIST = true) := by
    simp only [decide_eq_true_eq]
    rw [hd0]
    norm_num [SURFACE_DIST]
  have hc2 : ((fun a b => decide (a < b)) MAX_DIST
      ((fun a b : ℝ => a + b) 0
        ((MapTree.obj (sphere_dist Real.sqrt 1)
          (Material.Emissive 1)).toMap.dist
          (vadd2 (fun a b => a + b) (⟨0, 0, 100⟩ : Vec3 ℝ)
            (vsmul2 (fun a b => a * b) 0 ⟨0, 0, -1⟩)))) ||
      decide (MAX_STEPS < (0 : ℤ) + 1)) = true := by
    rw [Bool.or_eq_true]
    refine Or.inl ?_
    simp only [decide_eq_true_eq]
    rw [hd0]
    norm_num [MAX_DIST]
  unfold SdfMapS.ray_intersection
  rw [ray_intersection_go_succ]
  rw [if_neg hc1]
  rw [if_pos hc2]
  rfl

/-- C8 (amended): for a map consisting of a single sphere (with a genuine
square-root function on `ℝ`), casting a ray from an origin outside the
sphere aimed directly at its center returns `some` hit whose position lies
exactly on the sphere surface (hence within `ε = SURFACE_DIST`), and whose
distance from the ray origin equals `|origin| - radius` exactly (hence
within `ε`) — provided additionally that `|origin| - radius ≤ MAX_DIST`,
without which the tracer reports a miss (see the counterexample). -/
theorem C8_sphere_hit (sq : ℝ → ℝ)
    (hsq : ∀ x : ℝ, 0 ≤ x → sq x * sq x = x ∧ 0 ≤ sq x)
    (radius : ℝ) (mat : Material ℝ) (origin direction : Vec3 ℝ)
    (hr : 0 < radius)
    (hout : radius < sq (normSq origin))
    (hmax : sq (normSq origin) - radius ≤ MAX_DIST)
    (hdir : direction = -((sq (normSq origin))⁻¹ • origin)) :
    ∃ hit : HitInfo ℝ,
      (MapTree.obj (sphere_dist sq radius) mat).toMap.ray_intersection
          origin direction = some hit ∧
      hit.material = mat ∧
      sphere_dist sq radius hit.position = 0 ∧
      sq (normSq (hit.position - origin)) = sq (normSq origin) - radius := by
  have huniq : ∀ a : ℝ, 0 ≤ a → sq (a * a) = a := by
    intro a ha
    obtain ⟨h1, h2⟩ := hsq (a * a) (mul_self_nonneg a)
    have h3 : (sq (a * a) - a) * (sq (a * a) + a) = 0 := by linear_combination h1
    rcases mul_eq_zero.mp h3 with h4 | h4
    · linarith
    · linarith
  set L := sq (normSq origin) with hLdef
  have hns : 0 ≤ normSq origin := by
    unfold normSq
    nlinarith [mul_self_nonneg origin.x, mul_self_nonneg origin.y,
      mul_self_nonneg origin.z]
  obtain ⟨hLL, hL0⟩ := hsq (normSq origin) hns
  have hLpos : 0 < L := lt_trans hr hout
  have hLne : L ≠ 0 := ne_of_gt hLpos
  set m := (MapTree.obj (sphere_dist sq radius) mat).toMap with hm
  have hd0 : m.dist (vadd2 (fun a b => a + b) origin
      (vsmul2 (fun a b => a * b) 0 direction)) = L - radius := by
    have hP0 : vadd2 (fun a b => a + b) origin
        (vsmul2 (fun a b => a * b) 0 direction) = origin := by
      ext <;> simp [vadd2, vsmul2]
    rw [hP0]
    show sq (normSq origin) - radius = L - radius
    rw [← hLdef]
  have hPval : vadd2 (fun a b => a + b) origin
      (vsmul2 (fun a b => a * b) (0 + (L - radius)) direction) =
      (radius / L) • origin := by
    rw [hdir]
    ext <;> (simp [vadd2, vsmul2]; field_simp; ring)
  have hPval2 : vadd2 (fun a b => a + b) origin
      (vsmul2 (fun a b => a * b) (0 + (L - radius) + 0) direction) =
      (radius / L) • origin := by
    rw [hdir]
    ext <;> (simp [vadd2, vsmul2]; field_simp; ring)
  have hnormP : normSq ((radius / L) • origin) = radius * radius := by
    rw [normSq_smul, ← hLL]
    field_simp
  have hsd : sphere_dist sq radius ((radius / L) • origin) = 0 := by
    unfold sphere_dist
    rw [hnormP, huniq radius hr.le, sub_self]
  have hms : m.dist ((radius / L) • origin) = 0 := hsd
  have hdistO : sq (normSq ((radius / L) • origin - origin)) = L - radius := by
    have hsub : (radius / L) • origin - origin = ((radius - L) / L) • origin := by
      ext <;> (simp [vadd2, vsmul2]; field_simp; ring)
    rw [hsub, normSq_smul, ← hLL]
    have heq : (radius - L) / L * ((radius - L) / L) * (L * L) =
        (L - radius) * (L - radius) := by
      field_simp
      ring
    rw [heq]
    exact huniq (L - radius) (by linarith)
  by_cases hcase : L - radius < SURFACE_DIST
  · have h := ray_intersection_hit_eq m origin direction (by rw [hd0]; exact hcase)
    refine ⟨_, h, rfl, ?_, ?_⟩
    · show sphere_dist sq radius _ = 0
      rw [hd0, hPval]
      exact hsd
    · rw [hd0, hPval]
      exact hdistO
  · have h := ray_intersection_hit_second m origin direction
      (by rw [hd0]; exact hcase)
      (by rw [hd0]; exact not_lt.2 (by linarith))
      (by rw [hd0, hPval]; rw [hms]; norm_num [SURFACE_DIST])
    refine ⟨_, h, rfl, ?_, ?_⟩
    · show sphere_dist sq radius _ = 0
      rw [hd0, hPval, hms, hPval2]
      exact hsd
    · rw [hd0, hPval, hms, hPval2]
      exact hdistO

/-- Witness for C8: the unit sphere probed from `(0,0,3)` along
`-(1/3)·(0,0,3)`; the tracer returns a hit on the surface at distance 2
from the origin. -/
theorem C8_witness :
    ∃ hit : HitInfo ℝ,
      (MapTree.obj (sphere_dist Real.sqrt 1)
          (Material.Emissive 1)).toMap.ray_intersection ⟨0, 0, 3⟩
          (-((Real.sqrt (normSq (⟨0, 0, 3⟩ : Vec3 ℝ)))⁻¹ •
            (⟨0, 0, 3⟩ : Vec3 ℝ))) = some hit ∧
      hit.material = Material.Emissive 1 ∧
      sphere_dist Real.sqrt 1 hit.position = 0 ∧
      Real.sqrt (normSq (hit.position - ⟨0, 0, 3⟩)) =
        Real.sqrt (normSq (⟨0, 0, 3⟩ : Vec3 ℝ)) - 1 := by
  have h9 : normSq (⟨0, 0, 3⟩ : Vec3 ℝ) = 9 := by
    show (0 : ℝ) * 0 + 0 * 0 + 3 * 3 = 9
    norm_num
  have hs9 : Real.sqrt (normSq (⟨0, 0, 3⟩ : Vec3 ℝ)) = 3 := by
    rw [h9, show (9 : ℝ) = 3 ^ 2 by norm_num,
      Real.sqrt_sq (by norm_num : (0 : ℝ) ≤ 3)]
  exact C8_sphere_hit Real.sqrt
    (fun x hx => ⟨Real.mul_self_sqrt hx, Real.sqrt_nonneg x⟩)
    1 (Material.Emissive 1) ⟨0, 0, 3⟩ _ (by norm_num)
    (by rw [hs9]; norm_num)
    (by rw [hs9]; norm_num [MAX_DIST])
    rfl
